import Mathlib

/-!
# Verification of the Crypto-Mini lottery backend

Shallow embedding of the reward-issuance backend (`src/index.js`, with the
legacy variant in `src/unnamed/part_000`) and proofs about it.

Modelling conventions:

* JavaScript numbers that carry money (`balance`, reward `value`) are embedded
  as rationals (`ℚ`); counters (`spinsLeft`) as `Int`; timestamps as `Int`
  milliseconds since the epoch.
* `Date.prototype.toDateString()` renders the date in the **server-local**
  timezone, so the embedding carries an explicit timezone offset `tz`
  (milliseconds east of UTC) and models "same `toDateString()`" as "same
  local calendar-day number".
* The cryptographic pipeline (`SHA256`/`HMAC-SHA256`, hex encoding) is opaque
  to the control flow being verified, so the composite
  `payload ↦ hex(HMAC-SHA256(secretKey, payload))` is an abstract function
  parameter `hmacFn`.
* `URLSearchParams` is modelled as splitting on `&` and on the first `=` of
  each non-empty segment; percent-decoding and `+`-decoding are omitted as
  they act entry-wise and do not affect any verified property.
* `JSON.parse` is modelled by a small total recursive-descent parser
  (`jsonParse`); the model covers objects, strings without escape sequences,
  integer numbers, booleans and `null`, and rejects the rest.  A `none`
  result models a thrown `SyntaxError`.
* The fallible steps of a request return `Option`: `none` models a thrown
  exception reaching the route's `catch` (HTTP 500).
-/

/-! ## Calendar dates (`Date.prototype.toDateString`) -/

/-- Milliseconds in one day. -/
def msPerDay : Int := 86400000

/-- The server-local calendar-day number of the timestamp `t` under timezone
offset `tz` (ms east of UTC).  Two timestamps get equal `toDateString()`
renderings iff they have the same local day number. -/
def localDay (tz t : Int) : Int := (t + tz).fdiv msPerDay

/-- The UTC calendar-day number of timestamp `t` (what the spec's "calendar
date (UTC)" refers to). -/
def utcDay (t : Int) : Int := t.fdiv msPerDay

/-! ## The account record (mongoose `User` schema, `src/index.js:39-46`) -/

/-- One persisted account, mirroring the mongoose schema: `telegramId`,
`spinsLeft` (default 3), `rewards` (list of labels), `balance` (default 0),
`lastSpinDate` (default null). -/
structure User where
  telegramId : String
  spinsLeft : Int
  rewards : List String
  balance : ℚ
  lastSpinDate : Option Int

/-- `new User({ telegramId })` with all schema defaults. -/
def defaultUser (telegramId : String) : User :=
  { telegramId := telegramId, spinsLeft := 3, rewards := [], balance := 0,
    lastSpinDate := none }

/-- One entry of the fixed reward table. -/
structure Reward where
  label : String
  value : ℚ

/-- The fixed reward table of `POST /api/spin` (`src/index.js:215-220`); the
decimal literals `0.001` and `0.1` are written as the exact rationals
`1/1000` and `1/10`. -/
def rewards : List Reward :=
  [ { label := "0.001 ETH", value := mkRat 1 1000 },
    { label := "5 USDT", value := 5 },
    { label := "Try Again", value := 0 },
    { label := "0.1 ETH", value := mkRat 1 10 } ]

/-! ## The spin state machine (`POST /api/spin` body, `src/index.js:203-230`) -/

/-- Outcome of the quota/reward portion of a spin request. -/
inductive SpinOutcome where
  | granted (reward : String) (balance : ℚ) (spinsLeft : Int)
  | noSpinsLeft (spinsLeft : Int)

/-- The rollover condition
`!user.lastSpinDate || user.lastSpinDate.toDateString() !== today.toDateString()`
(`src/index.js:204`). -/
def rolloverDue (tz now : Int) : Option Int → Bool
  | none => true
  | some d => localDay tz d != localDay tz now

/-- The rollover assignment `user.spinsLeft = 3; user.lastSpinDate = today`
applied when `rolloverDue` holds (`src/index.js:204-207`). -/
def applyRollover (tz now : Int) (u : User) : User :=
  if rolloverDue tz now u.lastSpinDate then
    { u with spinsLeft := 3, lastSpinDate := some now }
  else u

/-- The part of the handler after the rollover check, acting on the in-memory
document `v`: quota check (early return, no save), decrement, reward lookup,
conditional balance/history update, save (`src/index.js:209-230`).
Result: `none` models a thrown `TypeError` from an out-of-bounds reward index
(caught by the route and turned into HTTP 500, nothing saved); otherwise
`some (outcome, save)` where `save = some v'` iff `user.save()` persisted
`v'` (the quota-exhausted path returns before saving). -/
def spinRest (i : Nat) (v : User) : Option (SpinOutcome × Option User) :=
  if v.spinsLeft ≤ 0 then
    some (.noSpinsLeft v.spinsLeft, none)
  else
    match rewards[i]? with
    | none => none
    | some reward =>
      let v1 := { v with spinsLeft := v.spinsLeft - 1 }
      let v2 :=
        if 0 < reward.value then
          { v1 with balance := v1.balance + reward.value,
                    rewards := v1.rewards ++ [reward.label] }
        else v1
      some (.granted reward.label v2.balance v2.spinsLeft, some v2)

/-- One spin request on a loaded account: rollover check, then the rest of the
handler (`src/index.js:203-230`).  `i` is `Math.floor(Math.random() * 4)`. -/
def spinStep (tz now : Int) (i : Nat) (u : User) : Option (SpinOutcome × Option User) :=
  spinRest i (applyRollover tz now u)

/-- The persisted state after one spin request: the saved document when the
handler saved, the untouched stored document otherwise. -/
def applySpinSave (tz now : Int) (i : Nat) (u : User) : User :=
  match spinStep tz now i u with
  | some (_, some v) => v
  | _ => u

/-- Per-account effect of `resetSpinsForAllUsers`
(`User.updateMany({}, { spinsLeft: 3, lastSpinDate: new Date() })`,
`src/index.js:239-246`). -/
def resetUser (now : Int) (u : User) : User :=
  { u with spinsLeft := 3, lastSpinDate := some now }

/-- An operation touching one account: a spin request (at time `now`, drawing
reward index `i`) or the scheduled global reset (at time `now`). -/
inductive Op where
  | spin (now : Int) (i : Nat)
  | reset (now : Int)

/-- Apply one operation to the persisted account. -/
def applyOp (tz : Int) (u : User) : Op → User
  | .spin now i => applySpinSave tz now i u
  | .reset now => resetUser now u

/-- Run a sequence of operations against the persisted account. -/
def runOps (tz : Int) (ops : List Op) (u : User) : User :=
  ops.foldl (applyOp tz) u

/-! ## Payload parsing (`URLSearchParams` model) -/

/-- Split a character list on a separator (kept structural so the kernel can
evaluate it on concrete payloads). -/
def splitOnChar (c : Char) : List Char → List (List Char)
  | [] => [[]]
  | x :: xs =>
    match splitOnChar c xs with
    | [] => if x = c then [[], []] else [[x]]
    | y :: ys => if x = c then [] :: y :: ys else (x :: y) :: ys

/-- Split one `key=value` segment at its first `=` (a segment without `=`
gets the empty value, further `=` signs belong to the value). -/
def parsePair (seg : List Char) : String × String :=
  let k := seg.takeWhile (fun c => c ≠ '=')
  let rest := seg.dropWhile (fun c => c ≠ '=')
  match rest with
  | '=' :: vs => (String.mk k, String.mk vs)
  | _ => (String.mk k, "")

/-- `new URLSearchParams(s)`: strip one leading `?`, split on `&`, drop empty
segments, split each segment at its first `=` (decoding omitted, see header). -/
def parseParams (s : String) : List (String × String) :=
  let cs :=
    match s.data with
    | '?' :: rest => rest
    | cs => cs
  ((splitOnChar '&' cs).filter (fun seg => seg ≠ [])).map parsePair

/-- `params.get(k)`: the value of the first entry named `k`, if any. -/
def firstVal (k : String) (l : List (String × String)) : Option String :=
  (l.find? (fun p => p.1 == k)).map (fun p => p.2)

/-- `params.get(k)` on a raw payload string. -/
def getParam (s k : String) : Option String :=
  firstVal k (parseParams s)

/-- `params.delete(k)`: removes every entry named `k`. -/
def deleteKey (k : String) (l : List (String × String)) : List (String × String) :=
  l.filter (fun p => p.1 != k)

/-! ## Signature verification (`verifyTelegram`, `src/index.js:125-153`) -/

/-- The canonical check-string: delete `hash`, render each remaining entry as
`key=value`, sort the rendered lines lexicographically (JavaScript
`Array.prototype.sort()` with no comparator), join with `"\n"`
(`src/index.js:133-138`). -/
def checkStringOf (l : List (String × String)) : String :=
  String.intercalate "\n"
    (((deleteKey "hash" l).map (fun p => p.1 ++ "=" ++ p.2)).mergeSort
      (fun a b => a ≤ b))

/-- The body of `verifyTelegram` after the payload-presence guard, acting on
the parsed entries.  `hmacFn` is the abstract
`s ↦ hex(HMAC-SHA256(secretKey, s))` pipeline (`src/index.js:129-148`).
A missing or empty `hash` value fails the JavaScript truthiness guard
`if (!hash) return false`. -/
def verifyCore (hmacFn : String → String) (l : List (String × String)) : Bool :=
  match firstVal "hash" l with
  | none => false
  | some h => if h = "" then false else hmacFn (checkStringOf l) == h

/-- `verifyTelegram(initData)` (`src/index.js:125-153`): `none` models a
missing argument; `if (!initData) return false` also rejects the empty
string; otherwise parse and check the signature.  Total by construction —
the body contains no throwing operation and is additionally wrapped in a
`try/catch` returning `false`. -/
def verifyTelegram (hmacFn : String → String) (initData : Option String) : Bool :=
  match initData with
  | none => false
  | some s => if s = "" then false else verifyCore hmacFn (parseParams s)

/-! ## JSON model (`JSON.parse`) -/

/-- JSON values as relevant to this backend (arrays and non-integer numbers
are outside the model; nothing verified below inspects them). -/
inductive Json where
  | null
  | bool (b : Bool)
  | num (n : Int)
  | str (s : String)
  | obj (fields : List (String × Json))

/-- Skip JSON whitespace. -/
def skipWs : List Char → List Char
  | [] => []
  | c :: cs => if c = ' ' ∨ c = '\t' ∨ c = '\n' ∨ c = '\r' then skipWs cs else c :: cs

/-- Scan a JSON string body up to the closing quote (escape sequences are
outside the model and rejected). -/
def spanStr : List Char → Option (List Char × List Char)
  | [] => none
  | c :: cs =>
    if c = '"' then some ([], cs)
    else if c = '\\' then none
    else match spanStr cs with
      | some (s, rest) => some (c :: s, rest)
      | none => none

/-- Longest digit run at the front. -/
def spanDigits : List Char → List Char × List Char
  | [] => ([], [])
  | c :: cs =>
    if c.isDigit then
      let (d, r) := spanDigits cs
      (c :: d, r)
    else ([], c :: cs)

/-- Decimal digits to a natural number. -/
def digitsToNat (ds : List Char) : Nat :=
  ds.foldl (fun n c => n * 10 + (c.toNat - 48)) 0

mutual

/-- Recursive-descent JSON value parse; the fuel strictly exceeds the nesting
depth, which is bounded by the input length. -/
def parseVal : Nat → List Char → Option (Json × List Char)
  | 0, _ => none
  | fuel + 1, cs =>
    match skipWs cs with
    | [] => none
    | c :: cs' =>
      if c = '"' then
        match spanStr cs' with
        | some (s, rest) => some (.str (String.mk s), rest)
        | none => none
      else if c = '\x7b' then
        match skipWs cs' with
        | '\x7d' :: rest => some (.obj [], rest)
        | cs'' => parseMembers fuel [] cs''
      else if c = 't' then
        match cs' with
        | 'r' :: 'u' :: 'e' :: rest => some (.bool true, rest)
        | _ => none
      else if c = 'f' then
        match cs' with
        | 'a' :: 'l' :: 's' :: 'e' :: rest => some (.bool false, rest)
        | _ => none
      else if c = 'n' then
        match cs' with
        | 'u' :: 'l' :: 'l' :: rest => some (.null, rest)
        | _ => none
      else if c = '-' then
        match spanDigits cs' with
        | ([], _) => none
        | (ds, rest) =>
          match rest with
          | r :: _ => if r = '.' ∨ r = 'e' ∨ r = 'E' then none
                      else some (.num (-(digitsToNat ds : Int)), rest)
          | [] => some (.num (-(digitsToNat ds : Int)), rest)
      else if c.isDigit then
        match spanDigits (c :: cs') with
        | ([], _) => none
        | (ds, rest) =>
          match rest with
          | r :: _ => if r = '.' ∨ r = 'e' ∨ r = 'E' then none
                      else some (.num (digitsToNat ds), rest)
          | [] => some (.num (digitsToNat ds), rest)
      else none

/-- Parse the members of an object after its `{` (first member pending). -/
def parseMembers : Nat → List (String × Json) → List Char → Option (Json × List Char)
  | 0, _, _ => none
  | fuel + 1, acc, cs =>
    match skipWs cs with
    | '"' :: cs' =>
      match spanStr cs' with
      | none => none
      | some (k, rest) =>
        match skipWs rest with
        | ':' :: rest' =>
          match parseVal fuel rest' with
          | none => none
          | some (v, rest'') =>
            match skipWs rest'' with
            | ',' :: rest3 => parseMembers fuel (acc ++ [(String.mk k, v)]) rest3
            | '\x7d' :: rest3 => some (.obj (acc ++ [(String.mk k, v)]), rest3)
            | _ => none
        | _ => none
    | _ => none

end

/-- `JSON.parse(s)`: parse one value and require the remainder to be blank;
`none` models a thrown `SyntaxError`. -/
def jsonParse (s : String) : Option Json :=
  match parseVal (s.length + 1) s.data with
  | some (j, rest) => if skipWs rest = [] then some j else none
  | none => none

/-! ## Identity extraction (`extractTelegramId`, `src/index.js:156-172`) -/

/-- A field access `j.k`: the last binding in an object (JavaScript keeps the
last duplicate key), `undefined` (here `none`) on non-objects. -/
def jsGetField (j : Json) (k : String) : Option Json :=
  match j with
  | .obj fs => ((fs.filter (fun p => p.1 == k)).getLast?).map (fun p => p.2)
  | _ => none

/-- JavaScript truthiness of a JSON value. -/
def jsTruthy : Json → Bool
  | .null => false
  | .bool b => b
  | .num n => n != 0
  | .str s => s ≠ ""
  | .obj _ => true

/-- `v.toString()` on a JSON value (objects stringify to
`"[object Object]"`; only truthy ids reach this call). -/
def jsToString : Json → String
  | .null => "null"
  | .bool b => if b then "true" else "false"
  | .num n => toString n
  | .str s => s
  | .obj _ => "[object Object]"

/-- JavaScript `a || b` over nullable strings (`null` and `""` are falsy). -/
def jsOr (a b : Option String) : Option String :=
  match a with
  | some s => if s = "" then b else some s
  | none => b

/-- The flat-key fallback
`const id = parsed.get("id") || parsed.get("user_id") || parsed.get("user_id"); if (id) return id.toString(); return null`
(`src/index.js:165-167`). -/
def flatIdFallback (parsed : List (String × String)) : Option String :=
  match jsOr (firstVal "id" parsed)
      (jsOr (firstVal "user_id" parsed) (firstVal "user_id" parsed)) with
  | some s => if s = "" then none else some s
  | none => none

/-- `extractTelegramId(initData)` (`src/index.js:156-172`): parse the payload,
try the JSON-encoded `user` field, fall back to flat keys.  A `JSON.parse`
failure throws and is caught by the function-wide `catch (err) { return null }`,
so it skips the fallback entirely. -/
def extractTelegramId (initData : String) : Option String :=
  let parsed := parseParams initData
  match firstVal "user" parsed with
  | some userStr =>
    if userStr = "" then flatIdFallback parsed
    else
      match jsonParse userStr with
      | none => none
      | some userObj =>
        if jsTruthy userObj then
          match jsGetField userObj "id" with
          | some idv =>
            if jsTruthy idv then some (jsToString idv) else flatIdFallback parsed
          | none => flatIdFallback parsed
        else flatIdFallback parsed
  | none => flatIdFallback parsed

/-! ## The HTTP route (`POST /api/spin`, `src/index.js:185-235`) -/

/-- `Math.floor(Math.random() * rewards.length)` for a draw `r ∈ [0, 1)`. -/
def drawIdx (r : ℚ) : Nat := (⌊r * 4⌋).toNat

/-- The five response shapes of the route, each with its payload. -/
inductive ApiResp where
  | badRequest (error : String)
  | forbidden (error : String)
  | okGranted (reward : String) (balance : ℚ) (spinsLeft : Int)
  | okNoSpins (error : String) (spinsLeft : Int)
  | serverError (error : String)

/-- The HTTP status code of a response. -/
def ApiResp.status : ApiResp → Nat
  | .badRequest _ => 400
  | .forbidden _ => 403
  | .okGranted _ _ _ => 200
  | .okNoSpins _ _ => 200
  | .serverError _ => 500

/-- `User.findOne({ telegramId })` over the store, modelled as an association
list keyed by `telegramId`. -/
def findOne (store : List (String × User)) (tid : String) : Option User :=
  (store.find? (fun p => p.1 == tid)).map (fun p => p.2)

/-- `user.save()`: replace the document with this `telegramId`, inserting it
when absent. -/
def saveUser (store : List (String × User)) (u : User) : List (String × User) :=
  if (store.find? (fun p => p.1 == u.telegramId)).isSome then
    store.map (fun p => if p.1 == u.telegramId then (p.1, u) else p)
  else store ++ [(u.telegramId, u)]

/-- The full `POST /api/spin` handler (`src/index.js:185-235`): body guard,
signature check, identity extraction, get-or-create, spin, responses.
`r` is the `Math.random()` draw used for the reward index. -/
def postApiSpin (hmacFn : String → String) (tz now : Int) (r : ℚ)
    (store : List (String × User)) (initData : Option String) :
    ApiResp × List (String × User) :=
  match initData with
  | none => (.badRequest "Missing initData", store)
  | some s =>
    if s = "" then (.badRequest "Missing initData", store)
    else if ¬ verifyTelegram hmacFn (some s) then
      (.forbidden "Invalid Telegram data", store)
    else
      match extractTelegramId s with
      | none => (.badRequest "Cannot determine user id", store)
      | some tid =>
        let found := findOne store tid
        let store1 := if found.isSome then store else saveUser store (defaultUser tid)
        let u := found.getD (defaultUser tid)
        match spinStep tz now (drawIdx r) u with
        | none => (.serverError "Internal server error", store1)
        | some (.noSpinsLeft n, _) => (.okNoSpins "No spins left today" n, store1)
        | some (.granted lbl b sl, sv) =>
          (.okGranted lbl b sl,
            match sv with
            | some v => saveUser store1 v
            | none => store1)

/-! ## Execution models for sequences of requests on one account -/

/-- Sequential requests: each spin re-reads the state the previous one
persisted.  Outcome `none` records a 500 (nothing saved). -/
def runSeq (tz now : Int) (u : User) : List Nat → List (Option SpinOutcome) × User
  | [] => ([], u)
  | i :: is =>
    match spinStep tz now i u with
    | some (o, sv) =>
      let rest := runSeq tz now (sv.getD u) is
      (some o :: rest.1, rest.2)
    | none =>
      let rest := runSeq tz now u is
      (none :: rest.1, rest.2)

/-- One in-flight request: not yet at its `findOne`, holding a computed
response plus pending `save`, finished, or crashed. -/
inductive ReqState where
  | ready (i : Nat)
  | toWrite (o : SpinOutcome) (save : Option User)
  | finished (o : SpinOutcome)
  | failed

/-- Advance request `j` by one store interaction: a `ready` request reads the
current document and computes its whole synchronous body; a `toWrite` request
commits its pending save (if any).  This is exactly the read/write split of
the handler: `findOne` then, later, `save` of the document computed from that
read. -/
def stepSys (tz now : Int) (st : User × List ReqState) (j : Nat) :
    User × List ReqState :=
  match st.2[j]? with
  | some (.ready i) =>
    (match spinStep tz now i st.1 with
     | some (o, sv) => (st.1, st.2.set j (.toWrite o sv))
     | none => (st.1, st.2.set j .failed))
  | some (.toWrite o sv) => (sv.getD st.1, st.2.set j (.finished o))
  | _ => st

/-- Run an interleaving schedule (a list of request indices) over one shared
account document. -/
def runSchedule (tz now : Int) (u : User) (reqs : List ReqState)
    (sched : List Nat) : User × List ReqState :=
  sched.foldl (stepSys tz now) (u, reqs)

/-- How many requests finished `granted`. -/
def countGranted (l : List ReqState) : Nat :=
  l.countP (fun s =>
    match s with
    | .finished (.granted _ _ _) => true
    | _ => false)

/-- Is a recorded sequential outcome a grant? -/
def isGrantedO : Option SpinOutcome → Bool
  | some (.granted _ _ _) => true
  | _ => false

/-- Is a recorded sequential outcome a quota rejection? -/
def isNoSpinsO : Option SpinOutcome → Bool
  | some (.noSpinsLeft _) => true
  | _ => false

/-! ## Helper lemmas -/

/-- The reward table has four entries. -/
lemma rewards_length : rewards.length = 4 := rfl

/-- Every table value is nonnegative. -/
lemma rewards_value_nonneg : ∀ rw ∈ rewards, 0 ≤ rw.value := by
  intro rw hrw
  fin_cases hrw <;> norm_num [mkRat]

/-- With an in-bounds index, `spinRest` never crashes. -/
lemma spinRest_isSome {i : Nat} (hi : i < rewards.length) (v : User) :
    spinRest i v ≠ none := by
  unfold spinRest
  split
  · simp
  · rw [List.getElem?_eq_getElem hi]
    simp

/-- A `granted` outcome of `spinRest` names the looked-up table entry, passed
the quota check, consumed exactly one spin, and saved the updated document. -/
lemma spinRest_granted {i : Nat} {v : User} {lbl : String} {b : ℚ}
    {sl : Int} {sv : Option User}
    (h : spinRest i v = some (.granted lbl b sl, sv)) :
    ∃ hlt : i < rewards.length, ∃ v2 : User,
      sv = some v2 ∧ lbl = (rewards.get ⟨i, hlt⟩).label ∧ b = v2.balance ∧
      sl = v2.spinsLeft ∧ 0 < v.spinsLeft ∧
      v2.spinsLeft = v.spinsLeft - 1 ∧
      v2.lastSpinDate = v.lastSpinDate ∧
      v2.telegramId = v.telegramId ∧
      (0 < (rewards.get ⟨i, hlt⟩).value →
        v2.balance = v.balance + (rewards.get ⟨i, hlt⟩).value ∧
        v2.rewards = v.rewards ++ [(rewards.get ⟨i, hlt⟩).label]) ∧
      (¬ 0 < (rewards.get ⟨i, hlt⟩).value →
        v2.balance = v.balance ∧ v2.rewards = v.rewards) := by
  unfold spinRest at h
  split at h
  · simp at h
  · rename_i hpos
    cases hg : rewards[i]? with
    | none => rw [hg] at h; cases h
    | some rwd =>
      have hlt : i < rewards.length := by
        cases Nat.lt_or_ge i rewards.length with
        | inl h' => exact h'
        | inr h' => rw [List.getElem?_eq_none h'] at hg; cases hg
      have hget : rewards.get ⟨i, hlt⟩ = rwd := by
        rw [List.getElem?_eq_getElem hlt] at hg
        exact (Option.some.injEq _ _).mp hg
      rw [hg] at h
      simp only [Option.some.injEq, Prod.mk.injEq,
        SpinOutcome.granted.injEq] at h
      by_cases hval : 0 < rwd.value
      · rw [if_pos hval] at h
        obtain ⟨⟨hl, hb, hs⟩, hv⟩ := h
        refine ⟨hlt, _, hv.symm, hget ▸ hl.symm, hb.symm, hs.symm,
          Int.not_le.mp hpos, rfl, rfl, rfl, ?_, ?_⟩
        · intro _; rw [hget]; exact ⟨rfl, rfl⟩
        · intro hc; exact absurd (hget ▸ hval) hc
      · rw [if_neg hval] at h
        obtain ⟨⟨hl, hb, hs⟩, hv⟩ := h
        refine ⟨hlt, _, hv.symm, hget ▸ hl.symm, hb.symm, hs.symm,
          Int.not_le.mp hpos, rfl, rfl, rfl, ?_, ?_⟩
        · intro hc; exact absurd (hget ▸ hc) hval
        · intro _; exact ⟨rfl, rfl⟩

/-- A `noSpinsLeft` outcome of `spinRest` reports the in-memory count and
saves nothing. -/
lemma spinRest_noSpins {i : Nat} {v : User} {sl : Int} {sv : Option User}
    (h : spinRest i v = some (.noSpinsLeft sl, sv)) :
    sl = v.spinsLeft ∧ sv = none ∧ v.spinsLeft ≤ 0 := by
  unfold spinRest at h
  split at h
  · rename_i hle
    simp only [Option.some.injEq, Prod.mk.injEq, SpinOutcome.noSpinsLeft.injEq] at h
    exact ⟨h.1.symm, h.2.symm, hle⟩
  · cases hg : rewards[i]? with
    | none => rw [hg] at h; cases h
    | some rw => rw [hg] at h; simp at h

/-- The rollover branch taken. -/
lemma applyRollover_due {tz now : Int} {u : User}
    (h : rolloverDue tz now u.lastSpinDate = true) :
    applyRollover tz now u = { u with spinsLeft := 3, lastSpinDate := some now } := by
  unfold applyRollover
  rw [h]
  simp

/-- The rollover branch skipped. -/
lemma applyRollover_not_due {tz now : Int} {u : User}
    (h : rolloverDue tz now u.lastSpinDate = false) :
    applyRollover tz now u = u := by
  unfold applyRollover
  rw [h]
  simp

/-- The draw index is in bounds for every `r ∈ [0, 1)`. -/
lemma drawIdx_lt {r : ℚ} (h0 : 0 ≤ r) (h1 : r < 1) : drawIdx r < 4 := by
  unfold drawIdx
  have h4 : r * 4 < 4 := by nlinarith
  have h0' : (0:ℚ) ≤ r * 4 := by positivity
  have hf : ⌊r * 4⌋ < (4:ℤ) := Int.floor_lt.mpr (by exact_mod_cast h4)
  have hnn : (0:ℤ) ≤ ⌊r * 4⌋ := Int.floor_nonneg.mpr h0'
  exact (Int.toNat_lt hnn).mpr hf

/-! ## C10 -/

/-- C10: reward selection is total.  For every `Math.random()` draw
`r ∈ [0, 1)` the index `⌊r·4⌋` lies within the bounds of the fixed 4-entry
reward table, so every spin that passes the quota check selects a defined
reward rather than crashing, and a `granted` response always carries one of
the four table labels. -/
theorem C10_reward_selection_total (r : ℚ) (h0 : 0 ≤ r) (h1 : r < 1) :
    drawIdx r < rewards.length ∧
    (∀ tz now : Int, ∀ u : User, spinStep tz now (drawIdx r) u ≠ none) ∧
    (∀ tz now : Int, ∀ u : User, ∀ lbl b sl sv,
      spinStep tz now (drawIdx r) u = some (.granted lbl b sl, sv) →
      lbl = "0.001 ETH" ∨ lbl = "5 USDT" ∨ lbl = "Try Again" ∨ lbl = "0.1 ETH") := by
  have hlt : drawIdx r < rewards.length := by
    rw [rewards_length]; exact drawIdx_lt h0 h1
  refine ⟨hlt, ?_, ?_⟩
  · intro tz now u
    exact spinRest_isSome hlt _
  · intro tz now u lbl b sl sv h
    obtain ⟨hlt', _, _, hl, _⟩ := spinRest_granted h
    have h4 : drawIdx r < 4 := by rw [← rewards_length]; exact hlt'
    interval_cases hidx : drawIdx r
    · exact Or.inl hl
    · exact Or.inr (Or.inl hl)
    · exact Or.inr (Or.inr (Or.inl hl))
    · exact Or.inr (Or.inr (Or.inr hl))

/-- Witness for C10 at the concrete draw `r = 1/2` (index 2). -/
theorem C10_witness :
    drawIdx (mkRat 1 2) < rewards.length ∧
    (∀ tz now : Int, ∀ u : User, spinStep tz now (drawIdx (mkRat 1 2)) u ≠ none) ∧
    (∀ tz now : Int, ∀ u : User, ∀ lbl b sl sv,
      spinStep tz now (drawIdx (mkRat 1 2)) u = some (.granted lbl b sl, sv) →
      lbl = "0.001 ETH" ∨ lbl = "5 USDT" ∨ lbl = "Try Again" ∨ lbl = "0.1 ETH") :=
  C10_reward_selection_total (mkRat 1 2) (by decide) (by decide)

/-- Forward evaluation of `spinRest` past the quota check: the reward at `i`
is drawn, one spin is consumed, and the updated document is saved. -/
lemma spinRest_eval {i : Nat} (hlt : i < rewards.length) (v : User)
    (hpos : ¬ v.spinsLeft ≤ 0) :
    spinRest i v =
      (if _hval : 0 < (rewards.get ⟨i, hlt⟩).value then
        some (.granted (rewards.get ⟨i, hlt⟩).label
          (v.balance + (rewards.get ⟨i, hlt⟩).value) (v.spinsLeft - 1),
          some { v with spinsLeft := v.spinsLeft - 1,
                        balance := v.balance + (rewards.get ⟨i, hlt⟩).value,
                        rewards := v.rewards ++ [(rewards.get ⟨i, hlt⟩).label] })
      else
        some (.granted (rewards.get ⟨i, hlt⟩).label v.balance (v.spinsLeft - 1),
          some { v with spinsLeft := v.spinsLeft - 1 })) := by
  have hg : rewards[i]? = some (rewards.get ⟨i, hlt⟩) := by
    rw [List.getElem?_eq_getElem hlt, List.get_eq_getElem]
  unfold spinRest
  rw [if_neg hpos, hg]
  by_cases hval : 0 < (rewards.get ⟨i, hlt⟩).value
  · rw [dif_pos hval]
    simp only [Option.some.injEq, Prod.mk.injEq, SpinOutcome.granted.injEq]
    rw [if_pos hval]
    simp
  · rw [dif_neg hval]
    simp only [Option.some.injEq, Prod.mk.injEq, SpinOutcome.granted.injEq]
    rw [if_neg hval]
    simp

/-! ## C1 -/

/-- C1 (amended): for every spin call, if the account's `lastSpinDate` is
absent or its **server-local** calendar date (the `toDateString()` rendering)
differs from the current server-local date, the engine sets `spinsLeft` to 3
and `lastSpinDate` to the current time before the quota check; in particular
an account with `lastSpinDate` on an earlier local day and `spinsLeft = 0`
that spins gets a rollover to 3, a decrement to 2, and a `granted` result.
(When the server runs in UTC, `tz = 0`, the local date is the UTC date.) -/
theorem C1_rollover_rearms_quota (tz now : Int) (i : Nat) (u : User)
    (hdue : rolloverDue tz now u.lastSpinDate = true) (hi : i < 4) :
    applyRollover tz now u = { u with spinsLeft := 3, lastSpinDate := some now } ∧
    spinStep tz now i u =
      spinRest i { u with spinsLeft := 3, lastSpinDate := some now } ∧
    ∃ lbl : String, ∃ b : ℚ, ∃ v : User,
      spinStep tz now i u = some (.granted lbl b 2, some v) ∧
      v.spinsLeft = 2 ∧ v.lastSpinDate = some now := by
  have hroll := applyRollover_due hdue
  have hfact : spinStep tz now i u =
      spinRest i { u with spinsLeft := 3, lastSpinDate := some now } := by
    rw [spinStep, hroll]
  refine ⟨hroll, hfact, ?_⟩
  have hlt : i < rewards.length := by rw [rewards_length]; exact hi
  rw [hfact, spinRest_eval hlt _ (by decide : ¬ (3:Int) ≤ 0)]
  by_cases hval : 0 < (rewards.get ⟨i, hlt⟩).value
  · rw [dif_pos hval]
    exact ⟨_, _, _, rfl, rfl, rfl⟩
  · rw [dif_neg hval]
    exact ⟨_, _, _, rfl, rfl, rfl⟩

/-- The spec's scenario account "u3": a spin left over from local day 0,
quota exhausted. -/
def u3Acc : User :=
  { telegramId := "u3", spinsLeft := 0, rewards := [], balance := 0,
    lastSpinDate := some 0 }

/-- Witness for C1 at the spec's scenario: "u3" spinning at local day 1
(`now = 86400000`), drawing index 2. -/
theorem C1_witness :
    applyRollover 0 86400000 u3Acc =
      { u3Acc with spinsLeft := 3, lastSpinDate := some 86400000 } ∧
    spinStep 0 86400000 2 u3Acc =
      spinRest 2 { u3Acc with spinsLeft := 3, lastSpinDate := some 86400000 } ∧
    ∃ lbl : String, ∃ b : ℚ, ∃ v : User,
      spinStep 0 86400000 2 u3Acc = some (.granted lbl b 2, some v) ∧
      v.spinsLeft = 2 ∧ v.lastSpinDate = some 86400000 :=
  C1_rollover_rearms_quota 0 86400000 2 u3Acc (by decide) (by decide)

/-- An account one hour before local midnight of day 1 on a UTC+2 server. -/
def lateNightAcc : User :=
  { telegramId := "u", spinsLeft := 0, rewards := [], balance := 0,
    lastSpinDate := some 82800000 }

/-- Counterexample to C1 as stated: the code compares `toDateString()`
renderings, which use the **server-local** timezone, not UTC.  On a server at
UTC+2 (`tz = 7200000` ms), `lastSpinDate` 23:00 UTC of day 0 and `now` 01:00
UTC of day 1 lie on different UTC calendar dates, yet the spin of this
account with `spinsLeft = 0` does not roll over: it returns `noSpinsLeft 0`
with nothing persisted, not the claimed rollover-to-3 and `granted`. -/
theorem C1_counterexample :
    utcDay 82800000 ≠ utcDay 90000000 ∧
    spinStep 7200000 90000000 0 lateNightAcc = some (.noSpinsLeft 0, none) := by
  constructor
  · decide
  · rfl

/-! ## C2 -/

/-- C2: for every spin call where `spinsLeft ≤ 0` after the rollover check,
the result is `noSpinsLeft` reporting the remaining count, nothing is saved
(`save = none`), and the in-memory account equals the stored one — balance,
history, `spinsLeft` and the persisted record are all left as they were. -/
theorem C2_quota_exhausted_no_mutation (tz now : Int) (i : Nat) (u : User)
    (h : (applyRollover tz now u).spinsLeft ≤ 0) :
    spinStep tz now i u =
      some (.noSpinsLeft (applyRollover tz now u).spinsLeft, none) ∧
    applyRollover tz now u = u := by
  have hnd : rolloverDue tz now u.lastSpinDate = false := by
    cases hb : rolloverDue tz now u.lastSpinDate
    · rfl
    · rw [applyRollover_due hb] at h
      exact absurd h (by norm_num)
  have hr := applyRollover_not_due hnd
  refine ⟨?_, hr⟩
  rw [spinStep, hr]
  rw [hr] at h
  unfold spinRest
  rw [if_pos h]

/-- The spec's scenario account "u2": quota exhausted, already spun today. -/
def u2Acc : User :=
  { telegramId := "u2", spinsLeft := 0, rewards := [], balance := 0,
    lastSpinDate := some 0 }

/-- Witness for C2 at the spec's scenario: "u2" spins again in the same local
day; the quota check fires and nothing changes. -/
theorem C2_witness :
    spinStep 0 0 0 u2Acc =
      some (.noSpinsLeft (applyRollover 0 0 u2Acc).spinsLeft, none) ∧
    applyRollover 0 0 u2Acc = u2Acc :=
  C2_quota_exhausted_no_mutation 0 0 0 u2Acc (by decide)

/-! ## C3 -/

/-- A spin that did not save leaves the stored record as it was. -/
lemma applySpinSave_eq_of_none {tz now : Int} {i : Nat} {u : User}
    (hs : spinStep tz now i u = none) : applySpinSave tz now i u = u := by
  unfold applySpinSave
  rw [hs]

/-- A spin whose outcome carries no pending save leaves the stored record. -/
lemma applySpinSave_eq_of_nosave {tz now : Int} {i : Nat} {u : User}
    {o : SpinOutcome} (hs : spinStep tz now i u = some (o, none)) :
    applySpinSave tz now i u = u := by
  unfold applySpinSave
  rw [hs]

/-- A granted spin persists exactly the saved document. -/
lemma applySpinSave_eq_of_granted {tz now : Int} {i : Nat} {u : User}
    {lbl : String} {b : ℚ} {sl : Int} {v : User}
    (hs : spinStep tz now i u = some (.granted lbl b sl, some v)) :
    applySpinSave tz now i u = v := by
  unfold applySpinSave
  rw [hs]

/-- Every single operation preserves nonnegativity of `spinsLeft`. -/
lemma applyOp_nonneg (tz : Int) (u : User) (op : Op)
    (h : 0 ≤ u.spinsLeft) : 0 ≤ (applyOp tz u op).spinsLeft := by
  cases op with
  | reset now => norm_num [applyOp, resetUser]
  | spin now i =>
    show 0 ≤ (applySpinSave tz now i u).spinsLeft
    cases hs : spinStep tz now i u with
    | none => rw [applySpinSave_eq_of_none hs]; exact h
    | some p =>
      obtain ⟨o, sv⟩ := p
      cases o with
      | noSpinsLeft sl =>
        obtain ⟨-, hsv, -⟩ := spinRest_noSpins hs
        subst hsv
        rw [applySpinSave_eq_of_nosave hs]
        exact h
      | granted lbl b sl =>
        cases sv with
        | none => rw [applySpinSave_eq_of_nosave hs]; exact h
        | some v =>
          rw [applySpinSave_eq_of_granted hs]
          obtain ⟨hlt, v2, hv2, -, -, -, hpos, hdec, -⟩ := spinRest_granted hs
          cases Option.some.inj hv2
          omega

/-- `spinsLeft` stays nonnegative along any run. -/
lemma runOps_nonneg (tz : Int) (ops : List Op) (u : User)
    (h : 0 ≤ u.spinsLeft) : 0 ≤ (runOps tz ops u).spinsLeft := by
  induction ops generalizing u with
  | nil => simpa [runOps]
  | cons op ops ih =>
    show 0 ≤ (runOps tz ops (applyOp tz u op)).spinsLeft
    exact ih _ (applyOp_nonneg tz u op h)

/-- C3: quota invariants.  Starting from any account with nonnegative quota,
`spinsLeft` never becomes negative under any sequence of spin and reset
operations; a global reset and a firing rollover each set it to exactly the
full allotment 3 (so never above 3 right after them); a granted spin ends
with exactly one less than the post-rollover value; and a spin whose
rollover did not fire either leaves `spinsLeft` unchanged or decrements it
by exactly 1 — so rollover and reset are the only operations that rearm the
quota. -/
theorem C3_quota_invariants (tz : Int) :
    (∀ (ops : List Op) (u : User), 0 ≤ u.spinsLeft →
      0 ≤ (runOps tz ops u).spinsLeft) ∧
    (∀ (now : Int) (u : User), (resetUser now u).spinsLeft = 3) ∧
    (∀ (now : Int) (u : User), rolloverDue tz now u.lastSpinDate = true →
      (applyRollover tz now u).spinsLeft = 3) ∧
    (∀ (now : Int) (i : Nat) (u : User) (lbl : String) (b : ℚ) (sl : Int)
      (v : User), spinStep tz now i u = some (.granted lbl b sl, some v) →
      v.spinsLeft = (applyRollover tz now u).spinsLeft - 1) ∧
    (∀ (now : Int) (i : Nat) (u : User),
      rolloverDue tz now u.lastSpinDate = false →
      (applySpinSave tz now i u).spinsLeft = u.spinsLeft ∨
      (applySpinSave tz now i u).spinsLeft = u.spinsLeft - 1) := by
  refine ⟨runOps_nonneg tz, fun now u => rfl, ?_, ?_, ?_⟩
  · intro now u hdue
    rw [applyRollover_due hdue]
  · intro now i u lbl b sl v hs
    obtain ⟨hlt, v2, hv2, -, -, -, hpos, hdec, -⟩ := spinRest_granted hs
    cases Option.some.inj hv2
    exact hdec
  · intro now i u hnd
    have hr := applyRollover_not_due hnd
    cases hs : spinStep tz now i u with
    | none => rw [applySpinSave_eq_of_none hs]; exact Or.inl rfl
    | some p =>
      obtain ⟨o, sv⟩ := p
      cases o with
      | noSpinsLeft sl =>
        obtain ⟨-, hsv, -⟩ := spinRest_noSpins hs
        subst hsv
        rw [applySpinSave_eq_of_nosave hs]
        exact Or.inl rfl
      | granted lbl b sl =>
        cases sv with
        | none => rw [applySpinSave_eq_of_nosave hs]; exact Or.inl rfl
        | some v =>
          rw [applySpinSave_eq_of_granted hs]
          obtain ⟨hlt, v2, hv2, -, -, -, hpos, hdec, -⟩ := spinRest_granted hs
          cases Option.some.inj hv2
          rw [hr] at hdec
          exact Or.inr hdec

/-- Witness for C3: a run of one spin then a reset from a fresh account, plus
the granted-decrement clause at the "u3" scenario. -/
theorem C3_witness :
    (0 ≤ (runOps 0 [Op.spin 0 2, Op.reset 0] (defaultUser "w")).spinsLeft) ∧
    (applyRollover 0 86400000 u3Acc).spinsLeft = 3 ∧
    (applySpinSave 0 0 2 u2Acc).spinsLeft = u2Acc.spinsLeft := by
  refine ⟨(C3_quota_invariants 0).1 _ _ (by decide), ?_, ?_⟩
  · exact (C3_quota_invariants 0).2.2.1 86400000 u3Acc (by decide)
  · rcases (C3_quota_invariants 0).2.2.2.2 0 2 u2Acc (by decide) with h | h
    · exact h
    · exact absurd h (by decide)

/-! ## C4 -/

/-- The rollover never touches the balance. -/
lemma applyRollover_balance (tz now : Int) (u : User) :
    (applyRollover tz now u).balance = u.balance := by
  unfold applyRollover
  split <;> rfl

/-- The rollover never touches the reward history. -/
lemma applyRollover_rewards (tz now : Int) (u : User) :
    (applyRollover tz now u).rewards = u.rewards := by
  unfold applyRollover
  split <;> rfl

/-- C4: on every spin call the balance never decreases and moves exactly by
the drawn reward's value; a history entry with the drawn label is appended
iff the drawn value is strictly positive (the zero-value draw changes
neither balance nor history while still consuming a spin); the
quota-exhausted path performs no save at all. -/
theorem C4_balance_and_history (tz now : Int) (i : Nat) (u : User)
    (hi : i < rewards.length) :
    (∀ o sv, spinStep tz now i u = some (o, sv) →
      u.balance ≤ (sv.getD u).balance) ∧
    (∀ lbl b sl v, spinStep tz now i u = some (.granted lbl b sl, some v) →
      v.balance = u.balance + (rewards.get ⟨i, hi⟩).value ∧
      (0 < (rewards.get ⟨i, hi⟩).value → v.rewards = u.rewards ++ [lbl]) ∧
      ((rewards.get ⟨i, hi⟩).value = 0 →
        v.rewards = u.rewards ∧ v.balance = u.balance) ∧
      v.spinsLeft = (applyRollover tz now u).spinsLeft - 1) ∧
    (∀ sl sv, spinStep tz now i u = some (.noSpinsLeft sl, sv) → sv = none) := by
  have hmem : rewards.get ⟨i, hi⟩ ∈ rewards := List.get_mem rewards i hi
  have hval0 : 0 ≤ (rewards.get ⟨i, hi⟩).value := rewards_value_nonneg _ hmem
  refine ⟨?_, ?_, ?_⟩
  · intro o sv hs
    cases o with
    | noSpinsLeft sl =>
      obtain ⟨-, hsv, -⟩ := spinRest_noSpins hs
      subst hsv
      simp
    | granted lbl b sl =>
      obtain ⟨hlt, v2, hsv, -, -, -, -, -, -, -, hposc, hnegc⟩ :=
        spinRest_granted hs
      subst hsv
      simp only [Option.getD_some]
      by_cases hpv : 0 < (rewards.get ⟨i, hlt⟩).value
      · have hb := (hposc hpv).1
        rw [hb, applyRollover_balance]
        linarith [hpv]
      · have hb := (hnegc hpv).1
        rw [hb, applyRollover_balance]
  · intro lbl b sl v hs
    obtain ⟨hlt, v2, hsv, hl, -, -, -, hdec, -, -, hposc, hnegc⟩ :=
      spinRest_granted hs
    cases Option.some.inj hsv
    by_cases hpv : 0 < (rewards.get ⟨i, hi⟩).value
    · obtain ⟨hb, hw⟩ := hposc hpv
      refine ⟨?_, ?_, ?_, hdec⟩
      · rw [hb, applyRollover_balance]
      · intro _
        rw [hw, applyRollover_rewards, hl]
      · intro hz
        exact absurd hz (by exact ne_of_gt hpv)
    · obtain ⟨hb, hw⟩ := hnegc hpv
      have hz : (rewards.get ⟨i, hi⟩).value = 0 :=
        le_antisymm (le_of_not_lt hpv) hval0
      refine ⟨?_, ?_, ?_, hdec⟩
      · rw [hb, applyRollover_balance, hz, add_zero]
      · intro hc
        exact absurd hc hpv
      · intro _
        rw [hw, applyRollover_rewards, hb, applyRollover_balance]
        exact ⟨rfl, rfl⟩
  · intro sl sv hs
    exact (spinRest_noSpins hs).2.1

/-- The spec's scenario account "u1": fresh, already rolled over today. -/
def u1Acc : User :=
  { telegramId := "u1", spinsLeft := 3, rewards := [], balance := 0,
    lastSpinDate := some 0 }

/-- "u1" after drawing index 0 (`0.001 ETH`). -/
def u1After : User :=
  { telegramId := "u1", spinsLeft := 2, rewards := ["0.001 ETH"],
    balance := (0:ℚ) + mkRat 1 1000, lastSpinDate := some 0 }

/-- Witness for C4: "u1" draws index 0, balance goes up by exactly `0.001`
and one history entry is appended. -/
theorem C4_witness :
    u1Acc.balance ≤ ((some u1After).getD u1Acc).balance ∧
    u1After.balance = u1Acc.balance + (rewards.get ⟨0, by decide⟩).value ∧
    u1After.rewards = u1Acc.rewards ++ ["0.001 ETH"] := by
  have h := C4_balance_and_history 0 0 0 u1Acc (by decide)
  exact ⟨h.1 _ (some u1After) rfl,
    (h.2.1 "0.001 ETH" u1After.balance 2 u1After rfl).1,
    (h.2.1 "0.001 ETH" u1After.balance 2 u1After rfl).2.1 (by decide)⟩

/-! ## C5 -/

/-- C5 (amended): a nonempty payload whose field set contains no `hash`
field fails verification with the boolean `false` — the code has no separate
"malformed" failure — and the spin endpoint responds with HTTP 403, the same
status as an invalid signature, not 400; the store is untouched.  (400 is
reserved for a missing or empty `initData` body field and for an
unresolvable identity.) -/
theorem C5_missing_hash_forbidden (hmacFn : String → String) (tz now : Int)
    (r : ℚ) (store : List (String × User)) (s : String)
    (hne : s ≠ "") (hh : firstVal "hash" (parseParams s) = none) :
    verifyTelegram hmacFn (some s) = false ∧
    (postApiSpin hmacFn tz now r store (some s)).1.status = 403 ∧
    (postApiSpin hmacFn tz now r store (some s)).1.status ≠ 400 ∧
    (postApiSpin hmacFn tz now r store (some s)).2 = store := by
  have hv : verifyTelegram hmacFn (some s) = false := by
    simp [verifyTelegram, verifyCore, hne, hh]
  have hpost : postApiSpin hmacFn tz now r store (some s) =
      (.forbidden "Invalid Telegram data", store) := by
    unfold postApiSpin
    simp [hne, hv]
  rw [hpost]
  exact ⟨hv, rfl, (by decide : (403:Nat) ≠ 400), rfl⟩

/-- Witness for C5 at the concrete payload `"user=x"` (no `hash` field). -/
theorem C5_witness :
    verifyTelegram (fun _ => "") (some "user=x") = false ∧
    (postApiSpin (fun _ => "") 0 0 0 [] (some "user=x")).1.status = 403 ∧
    (postApiSpin (fun _ => "") 0 0 0 [] (some "user=x")).1.status ≠ 400 ∧
    (postApiSpin (fun _ => "") 0 0 0 [] (some "user=x")).2 = [] :=
  C5_missing_hash_forbidden (fun _ => "") 0 0 0 [] "user=x" (by decide)
    (by decide)

/-- Counterexample to C5 as stated: the payload `"user=x&id=7"` has no
`hash` field, yet the endpoint answers 403 (the invalid-signature status),
not the claimed 400; `verifyTelegram` reports plain `false`, there is no
distinct "malformed" classification. -/
theorem C5_counterexample :
    getParam "user=x&id=7" "hash" = none ∧
    (postApiSpin (fun _ => "") 0 0 0 [] (some "user=x&id=7")).1.status = 403 ∧
    ¬ (postApiSpin (fun _ => "") 0 0 0 []
        (some "user=x&id=7")).1.status = 400 := by
  refine ⟨by decide, by rfl, by decide⟩

/-! ## C6 -/

/-- Sorting with the JavaScript default string comparator is invariant under
permutation of the input. -/
lemma mergeSort_eq_of_perm {l1 l2 : List String} (h : l1.Perm l2) :
    l1.mergeSort (fun a b => a ≤ b) = l2.mergeSort (fun a b => a ≤ b) := by
  apply List.eq_of_perm_of_sorted (r := fun a b : String => a ≤ b)
  · exact (l1.mergeSort_perm _).trans (h.trans (l2.mergeSort_perm _).symm)
  · have h1 := @List.sorted_mergeSort String (fun a b => decide (a ≤ b))
      (by intro a b c hab hbc; simp only [decide_eq_true_eq] at *
          exact le_trans hab hbc)
      (by intro a b; simp only [Bool.or_eq_true, decide_eq_true_eq]
          exact le_total a b) l1
    simpa [List.Sorted, decide_eq_true_eq] using h1
  · have h1 := @List.sorted_mergeSort String (fun a b => decide (a ≤ b))
      (by intro a b c hab hbc; simp only [decide_eq_true_eq] at *
          exact le_trans hab hbc)
      (by intro a b; simp only [Bool.or_eq_true, decide_eq_true_eq]
          exact le_total a b) l2
    simpa [List.Sorted, decide_eq_true_eq] using h1

/-- C6: canonicalization is order-independent.  For any two payload field
lists that are permutations of one another and agree on the first `hash`
value (the one `params.get("hash")` returns), the check-string and the whole
verification result coincide: the check-string is a function of the field
multiset, not of the field order. -/
theorem C6_canonicalization_order_independent (hmacFn : String → String)
    (l1 l2 : List (String × String)) (hperm : l1.Perm l2)
    (hhash : firstVal "hash" l1 = firstVal "hash" l2) :
    checkStringOf l1 = checkStringOf l2 ∧
    verifyCore hmacFn l1 = verifyCore hmacFn l2 := by
  have hcs : checkStringOf l1 = checkStringOf l2 := by
    unfold checkStringOf
    congr 1
    exact mergeSort_eq_of_perm
      ((hperm.filter (fun p => p.1 != "hash")).map
        (fun p => p.1 ++ "=" ++ p.2))
  refine ⟨hcs, ?_⟩
  unfold verifyCore
  rw [hhash, hcs]

/-- Witness for C6 on two concrete permuted field lists sharing the `hash`
value `"h"`. -/
theorem C6_witness :
    checkStringOf [("b", "2"), ("a", "1"), ("hash", "h")] =
      checkStringOf [("hash", "h"), ("a", "1"), ("b", "2")] ∧
    verifyCore (fun _ => "") [("b", "2"), ("a", "1"), ("hash", "h")] =
      verifyCore (fun _ => "") [("hash", "h"), ("a", "1"), ("b", "2")] :=
  C6_canonicalization_order_independent (fun _ => "")
    [("b", "2"), ("a", "1"), ("hash", "h")]
    [("hash", "h"), ("a", "1"), ("b", "2")]
    (by decide) (by decide)

/-! ## C7 -/

/-- C7 (amended): identity extraction first tries the JSON-encoded `user`
field.  The flat-id fallback is reached when the `user` field is absent,
empty (falsy), parses to a falsy value, or parses to a value without a
truthy `id`; a truthy nested `id` is returned stringified.  But when the
`user` field is present, nonempty and **unparseable**, `JSON.parse` throws,
the function-wide catch returns null, and extraction yields no identity even
if a valid flat `id` field is present. -/
theorem C7_identity_extraction_chain :
    (∀ s us : String, firstVal "user" (parseParams s) = some us → us ≠ "" →
      jsonParse us = none → extractTelegramId s = none) ∧
    (∀ s : String, firstVal "user" (parseParams s) = none →
      extractTelegramId s = flatIdFallback (parseParams s)) ∧
    (∀ s : String, firstVal "user" (parseParams s) = some "" →
      extractTelegramId s = flatIdFallback (parseParams s)) ∧
    (∀ s us : String, ∀ j : Json, firstVal "user" (parseParams s) = some us →
      us ≠ "" → jsonParse us = some j → jsTruthy j = false →
      extractTelegramId s = flatIdFallback (parseParams s)) ∧
    (∀ s us : String, ∀ j : Json, firstVal "user" (parseParams s) = some us →
      us ≠ "" → jsonParse us = some j → jsTruthy j = true →
      jsGetField j "id" = none →
      extractTelegramId s = flatIdFallback (parseParams s)) ∧
    (∀ s us : String, ∀ j idv : Json,
      firstVal "user" (parseParams s) = some us →
      us ≠ "" → jsonParse us = some j → jsTruthy j = true →
      jsGetField j "id" = some idv → jsTruthy idv = false →
      extractTelegramId s = flatIdFallback (parseParams s)) ∧
    (∀ s us : String, ∀ j idv : Json,
      firstVal "user" (parseParams s) = some us →
      us ≠ "" → jsonParse us = some j → jsTruthy j = true →
      jsGetField j "id" = some idv → jsTruthy idv = true →
      extractTelegramId s = some (jsToString idv)) := by
  refine ⟨?_, ?_, ?_, ?_, ?_, ?_, ?_⟩
  · intro s us h1 h2 h3
    simp [extractTelegramId, h1, h2, h3]
  · intro s h1
    simp [extractTelegramId, h1]
  · intro s h1
    simp [extractTelegramId, h1]
  · intro s us j h1 h2 h3 h4
    simp [extractTelegramId, h1, h2, h3, h4]
  · intro s us j h1 h2 h3 h4 h5
    simp [extractTelegramId, h1, h2, h3, h4, h5]
  · intro s us j idv h1 h2 h3 h4 h5 h6
    simp [extractTelegramId, h1, h2, h3, h4, h5, h6]
  · intro s us j idv h1 h2 h3 h4 h5 h6
    simp [extractTelegramId, h1, h2, h3, h4, h5, h6]

/-- Witness for C7 at concrete payloads — an unparseable `user` aborts, a
missing `user` falls back, a present-but-falsy nested `id` (`{"id":0}`)
falls back to the flat `id` (resolving "42"), and a truthy nested `id`
resolves to the stringified id. -/
theorem C7_witness :
    extractTelegramId "user=notjson&id=42" = none ∧
    extractTelegramId "id=42" = flatIdFallback (parseParams "id=42") ∧
    extractTelegramId "user=\x7b\"id\":0\x7d&id=42" =
      flatIdFallback (parseParams "user=\x7b\"id\":0\x7d&id=42") ∧
    flatIdFallback (parseParams "user=\x7b\"id\":0\x7d&id=42") = some "42" ∧
    extractTelegramId "user=\x7b\"id\":123\x7d&id=42" =
      some (jsToString (Json.num 123)) := by
  refine ⟨?_, ?_, ?_, by decide, ?_⟩
  · exact C7_identity_extraction_chain.1 "user=notjson&id=42" "notjson"
      (by decide) (by decide) (by rfl)
  · exact C7_identity_extraction_chain.2.1 "id=42" (by decide)
  · exact C7_identity_extraction_chain.2.2.2.2.2.1 "user=\x7b\"id\":0\x7d&id=42"
      "\x7b\"id\":0\x7d" (Json.obj [("id", Json.num 0)]) (Json.num 0)
      (by decide) (by decide) (by rfl) (by rfl) (by rfl) (by rfl)
  · exact C7_identity_extraction_chain.2.2.2.2.2.2 "user=\x7b\"id\":123\x7d&id=42"
      "\x7b\"id\":123\x7d" (Json.obj [("id", Json.num 123)]) (Json.num 123)
      (by decide) (by decide) (by rfl) (by rfl) (by rfl) (by rfl)

/-- Counterexample to C7 as stated: the payload `"user=notjson&id=42"` has an
unparseable `user` field and a valid flat `id` field, yet extraction returns
no identity at all instead of falling back to `"42"`. -/
theorem C7_counterexample :
    getParam "user=notjson&id=42" "user" = some "notjson" ∧
    jsonParse "notjson" = none ∧
    getParam "user=notjson&id=42" "id" = some "42" ∧
    extractTelegramId "user=notjson&id=42" = none ∧
    extractTelegramId "user=notjson&id=42" ≠ some "42" := by
  refine ⟨by decide, by rfl, by decide, by rfl, by decide⟩

/-! ## C8 -/

/-- C8: `verifyTelegram` is total — for every input (including a missing
payload, the empty string, and arbitrary unparsed garbage) it returns a
boolean, with `false` as its typed failure (never an uncaught throw: the
model has no failing path, matching the function-wide `try/catch`), and it
returns `true` exactly when the payload is nonempty, carries a truthy `hash`
field, and the recomputed HMAC hex equals that hash. -/
theorem C8_verify_total (hmacFn : String → String) :
    (∀ d : Option String,
      verifyTelegram hmacFn d = true ∨ verifyTelegram hmacFn d = false) ∧
    verifyTelegram hmacFn none = false ∧
    verifyTelegram hmacFn (some "") = false ∧
    (∀ s : String, verifyTelegram hmacFn (some s) = true ↔
      (s ≠ "" ∧ ∃ h : String, firstVal "hash" (parseParams s) = some h ∧
        h ≠ "" ∧ hmacFn (checkStringOf (parseParams s)) = h)) := by
  refine ⟨fun d => ?_, rfl, rfl, fun s => ?_⟩
  · cases hb : verifyTelegram hmacFn d
    · exact Or.inr rfl
    · exact Or.inl rfl
  · constructor
    · intro ht
      by_cases hne : s = ""
      · rw [hne] at ht
        simp [verifyTelegram] at ht
      · refine ⟨hne, ?_⟩
        simp only [verifyTelegram, if_neg hne] at ht
        unfold verifyCore at ht
        cases hfv : firstVal "hash" (parseParams s) with
        | none => rw [hfv] at ht; simp at ht
        | some h =>
          simp only [hfv] at ht
          by_cases hz : h = ""
          · rw [if_pos hz] at ht; cases ht
          · rw [if_neg hz] at ht
            exact ⟨h, rfl, hz, eq_of_beq ht⟩
    · rintro ⟨hne, h, hfv, hz, heq⟩
      simp [verifyTelegram, verifyCore, hne, hfv, hz, heq]

/-! ## C9 -/

/-- Count of granted outcomes in a sequential run. -/
def countGrantedO (l : List (Option SpinOutcome)) : Nat := l.countP isGrantedO

/-- Count of quota rejections in a sequential run. -/
def countNoSpinsO (l : List (Option SpinOutcome)) : Nat := l.countP isNoSpinsO

/-- The table value drawn at index `i` (0 outside the table). -/
def rewardValue (i : Nat) : ℚ :=
  (rewards.getD i { label := "", value := 0 }).value

/-- The document saved by a granted spin with a positive-value draw. -/
def grantUpd (u : User) (rwd : Reward) : User :=
  { u with spinsLeft := u.spinsLeft - 1, balance := u.balance + rwd.value,
           rewards := u.rewards ++ [rwd.label] }

/-- The document saved by a granted spin with a zero-value draw. -/
def decUpd (u : User) : User := { u with spinsLeft := u.spinsLeft - 1 }

/-- `rewardValue` agrees with the in-bounds lookup. -/
lemma rewardValue_eq {i : Nat} (hlt : i < rewards.length) :
    rewardValue i = (rewards.get ⟨i, hlt⟩).value := by
  unfold rewardValue
  rw [List.getD_eq_getElem?_getD, List.getElem?_eq_getElem hlt,
    Option.getD_some, List.get_eq_getElem]

/-- C9 (amended): for spin requests executed **serially** against one account
already rolled over for the current (local) day with `spinsLeft = k ≥ 0`,
exactly `min(N, k)` of the `N` requests are granted, the rest get
`noSpinsLeft`, and the final balance is the initial balance plus the sum of
the granted draws' values — the first `min(N, k)` draws. -/
theorem C9_serial_spins (tz now : Int) (ids : List Nat) (u : User)
    (hnd : rolloverDue tz now u.lastSpinDate = false)
    (hk0 : 0 ≤ u.spinsLeft) (hids : ∀ i ∈ ids, i < 4) :
    countGrantedO (runSeq tz now u ids).1 =
      Nat.min ids.length u.spinsLeft.toNat ∧
    countNoSpinsO (runSeq tz now u ids).1 =
      ids.length - Nat.min ids.length u.spinsLeft.toNat ∧
    (runSeq tz now u ids).2.balance =
      u.balance + ((ids.take u.spinsLeft.toNat).map rewardValue).sum := by
  induction ids generalizing u with
  | nil =>
    simp [runSeq, countGrantedO, countNoSpinsO]
  | cons i is ih =>
    have hi : i < 4 := hids i (List.mem_cons_self i is)
    have his : ∀ j ∈ is, j < 4 := fun j hj => hids j (List.mem_cons_of_mem i hj)
    have hlt : i < rewards.length := by rw [rewards_length]; exact hi
    have hroll : applyRollover tz now u = u := applyRollover_not_due hnd
    by_cases hq : u.spinsLeft ≤ 0
    · have hstep : spinStep tz now i u = some (.noSpinsLeft u.spinsLeft, none) := by
        rw [spinStep, hroll]
        unfold spinRest
        rw [if_pos hq]
      have hrun : runSeq tz now u (i :: is) =
          (some (.noSpinsLeft u.spinsLeft) :: (runSeq tz now u is).1,
            (runSeq tz now u is).2) := by
        simp [runSeq, hstep]
      obtain ⟨ihg, ihn, ihb⟩ := ih u hnd hk0 his
      rw [hrun]
      have ht : u.spinsLeft.toNat = 0 := by omega
      rw [ht] at ihg ihn ihb ⊢
      refine ⟨?_, ?_, ?_⟩
      · simpa [countGrantedO, List.countP_cons, isGrantedO,
          Nat.min_zero] using ihg
      · simp [countNoSpinsO, List.countP_cons, isNoSpinsO,
          Nat.min_zero, List.length_cons] at ihn ⊢
        omega
      · simpa using ihb
    · have hstep0 : spinStep tz now i u = spinRest i u := by rw [spinStep, hroll]
      rw [spinRest_eval hlt u hq] at hstep0
      have hk1 : 1 ≤ u.spinsLeft := by omega
      have htn : u.spinsLeft.toNat = (u.spinsLeft - 1).toNat + 1 := by omega
      by_cases hval : 0 < (rewards.get ⟨i, hlt⟩).value
      · rw [dif_pos hval] at hstep0
        have hstep1 : spinStep tz now i u =
            some (.granted (rewards.get ⟨i, hlt⟩).label
              (u.balance + (rewards.get ⟨i, hlt⟩).value) (u.spinsLeft - 1),
              some (grantUpd u (rewards.get ⟨i, hlt⟩))) := hstep0
        have hrun : runSeq tz now u (i :: is) =
            (some (.granted (rewards.get ⟨i, hlt⟩).label
                (u.balance + (rewards.get ⟨i, hlt⟩).value) (u.spinsLeft - 1)) ::
              (runSeq tz now (grantUpd u (rewards.get ⟨i, hlt⟩)) is).1,
              (runSeq tz now (grantUpd u (rewards.get ⟨i, hlt⟩)) is).2) := by
          simp [runSeq, hstep1]
        obtain ⟨ihg, ihn, ihb⟩ := ih (grantUpd u (rewards.get ⟨i, hlt⟩))
          hnd (by simp [grantUpd]; omega) his
        rw [hrun]
        have hsp : (grantUpd u (rewards.get ⟨i, hlt⟩)).spinsLeft
            = u.spinsLeft - 1 := rfl
        have hminrec : Nat.min (is.length + 1) u.spinsLeft.toNat
            = Nat.min is.length ((u.spinsLeft - 1).toNat) + 1 := by
          rw [htn]
          exact Nat.succ_min_succ _ _
        rw [hsp] at ihg ihn
        refine ⟨?_, ?_, ?_⟩
        · rw [List.length_cons, hminrec]
          simp [countGrantedO, List.countP_cons, isGrantedO] at ihg ⊢
          omega
        · rw [List.length_cons, hminrec]
          simp [countNoSpinsO, List.countP_cons, isNoSpinsO] at ihn ⊢
          omega
        · rw [ihb, htn, List.take_succ_cons, List.map_cons, List.sum_cons,
            rewardValue_eq hlt]
          simp only [grantUpd]
          ring
      · rw [dif_neg hval] at hstep0
        have hvz : (rewards.get ⟨i, hlt⟩).value = 0 :=
          le_antisymm (le_of_not_lt hval)
            (rewards_value_nonneg _ (List.get_mem rewards i hlt))
        have hstep1 : spinStep tz now i u =
            some (.granted (rewards.get ⟨i, hlt⟩).label u.balance
              (u.spinsLeft - 1), some (decUpd u)) := hstep0
        have hrun : runSeq tz now u (i :: is) =
            (some (.granted (rewards.get ⟨i, hlt⟩).label u.balance
                (u.spinsLeft - 1)) ::
              (runSeq tz now (decUpd u) is).1,
              (runSeq tz now (decUpd u) is).2) := by
          simp [runSeq, hstep1]
        obtain ⟨ihg, ihn, ihb⟩ := ih (decUpd u)
          hnd (by simp [decUpd]; omega) his
        rw [hrun]
        have hsp : (decUpd u).spinsLeft = u.spinsLeft - 1 := rfl
        have hminrec : Nat.min (is.length + 1) u.spinsLeft.toNat
            = Nat.min is.length ((u.spinsLeft - 1).toNat) + 1 := by
          rw [htn]
          exact Nat.succ_min_succ _ _
        rw [hsp] at ihg ihn
        refine ⟨?_, ?_, ?_⟩
        · rw [List.length_cons, hminrec]
          simp [countGrantedO, List.countP_cons, isGrantedO] at ihg ⊢
          omega
        · rw [List.length_cons, hminrec]
          simp [countNoSpinsO, List.countP_cons, isNoSpinsO] at ihn ⊢
          omega
        · rw [ihb, htn, List.take_succ_cons, List.map_cons, List.sum_cons,
            rewardValue_eq hlt, hvz]
          simp only [decUpd]
          ring

/-- Account for the sequential witness: one spin left, rolled over today. -/
def seqAcc : User :=
  { telegramId := "w", spinsLeft := 1, rewards := [], balance := 0,
    lastSpinDate := some 0 }

/-- Witness for C9 (amended): two serial spins against an account with one
spin left — exactly `min(2,1) = 1` grant, one `noSpinsLeft`, balance moved by
the first draw's value. -/
theorem C9_witness :
    countGrantedO (runSeq 0 0 seqAcc [2, 3]).1 =
      Nat.min ([2, 3] : List Nat).length seqAcc.spinsLeft.toNat ∧
    countNoSpinsO (runSeq 0 0 seqAcc [2, 3]).1 =
      ([2, 3] : List Nat).length -
        Nat.min ([2, 3] : List Nat).length seqAcc.spinsLeft.toNat ∧
    (runSeq 0 0 seqAcc [2, 3]).2.balance =
      seqAcc.balance +
        ((([2, 3] : List Nat).take seqAcc.spinsLeft.toNat).map rewardValue).sum :=
  C9_serial_spins 0 0 [2, 3] seqAcc (by decide) (by decide) (by decide)

/-- Account for the race counterexample: one spin left, rolled over today. -/
def raceAcc : User :=
  { telegramId := "u", spinsLeft := 1, rewards := [], balance := 0,
    lastSpinDate := some 0 }

/-- Counterexample to C9 as stated: the handler is a `findOne` followed later
by `save` — a read-modify-write with no conditional update — so two
overlapping requests that both read before either writes (schedule
read₀, read₁, write₀, write₁) both get `granted` against an account with
`spinsLeft = 1`: 2 grants instead of `min(2,1) = 1`, and the final balance
reflects only one grant (a lost update), not the sum of the granted values.
The claimed concurrency guarantee fails on the code. -/
theorem C9_counterexample :
    countGranted
      (runSchedule 0 0 raceAcc [.ready 0, .ready 0] [0, 1, 0, 1]).2 = 2 ∧
    Nat.min 2 1 = 1 ∧
    (2 : Nat) ≠ Nat.min 2 1 ∧
    (runSchedule 0 0 raceAcc [.ready 0, .ready 0] [0, 1, 0, 1]).1.balance =
      0 + mkRat 1 1000 ∧
    (0:ℚ) + mkRat 1 1000 ≠ raceAcc.balance + (rewardValue 0 + rewardValue 0) := by
  refine ⟨by decide, by decide, by decide, by rfl, ?_⟩
  norm_num [raceAcc, rewardValue, rewards, mkRat]
